import Mathlib

/-!
# Verification of the zmc_controller_upper G-code execution core

This file gives a shallow embedding, in Lean 4, of the G-code execution core
of the `zmc_controller_upper` repository:

* `src/api/g_code.rs` — line parser (`parse_gcode_line`), command interpreter
  (`interpret_gcode_movement`), the `GCodeManager` runner state machine
  (`start`/`stop`/`reset`), the preview replay (`generate_path_preview`,
  `preview_gcode_movement`, `draw_line`, `draw_arc`);
* `src/api/zmc.rs` — the guarded hardware entry points (`zmc_move`,
  `zmc_set_speed`, `zmc_move_abs` via `with_controller`);
* `src/utils/bitmap.rs` — the `Bitmap` raster (`new`, `set_pixel`, `clear`).

Modelling conventions:

* `f32`/`f64` arithmetic is idealized as exact arithmetic: rational (`ℚ`)
  where the source computes with ordinary field operations, and real (`ℝ`)
  where the source uses transcendental functions (`atan2`, `sin`, `cos`,
  `sqrt` in `draw_arc`).  Rust's saturating numeric casts (`as usize`,
  `as u8`, `as u32`) are modelled explicitly, including the clamping of
  negative values to zero.
* Hardware calls issued through the controller session are reified as a
  `HwCall` trace; an oracle `hw : HwCall → Bool` says which calls succeed.
  A failing `.expect(..)` in the source (a Rust panic) is modelled as an
  `Except.error` carrying the failing call, distinct from a returned
  `Result::Err` value.
* The async manager methods (`start`/`stop`, task completion) are modelled
  as atomic transitions of an explicit state machine; scheduling-level
  interleavings inside one method are outside the embedding.
* `char::is_whitespace` / regex classes `[A-Za-z]`, `\d` are modelled with
  Lean's `Char.isWhitespace` / `Char.isAlpha` / `Char.isDigit` (the inputs
  of interest are ASCII).
-/

/-! ## Rust numeric cast model -/

/-- Rust `as usize` applied to a (finite) float value: truncate toward zero
and saturate to `[0, 2^64 - 1]`.  For `q < 0` the cast yields `0`. -/
def rustCastUsize (q : ℚ) : ℕ :=
  min q.floor.toNat (2 ^ 64 - 1)

/-- Rust `as u8` applied to a float value: truncate toward zero and saturate
to `[0, 255]`. -/
def rustCastU8 (q : ℚ) : ℕ :=
  min q.floor.toNat 255

/-- Rust `as u32` applied to a float value: truncate toward zero and saturate
to `[0, 2^32 - 1]`. -/
def rustCastU32 (q : ℚ) : ℕ :=
  min q.floor.toNat (2 ^ 32 - 1)

/-- Truncation toward zero on rationals (the rounding used by Rust's float
`%` operator). -/
def ratTrunc (q : ℚ) : ℤ :=
  if q < 0 then -((-q).floor) else q.floor

/-- Rust float remainder `a % b` (sign follows the dividend). -/
def rustFmod (a b : ℚ) : ℚ :=
  a - b * (ratTrunc (a / b) : ℚ)

/-- Rust `f32::clamp`. -/
def rustClamp (q lo hi : ℚ) : ℚ :=
  min (max q lo) hi

/-- Rust `Vec::resize(n, fill)`: truncate to `n` elements or pad with
`fill` up to length `n`. -/
def rustResize (l : List ℕ) (n : ℕ) (fill : ℕ) : List ℕ :=
  l.take n ++ List.replicate (n - l.length) fill

/-! ## Line parser (`parse_gcode_line`, src/api/g_code.rs lines 153–198)

The parser is modelled at the character level.  The two regexes of the
source, `^([A-Za-z])(\d+)` and `([A-Za-z])(-?\d*\.?\d+)`, are implemented
directly with their leftmost, greedy-with-backtracking match semantics. -/

/-- Rust `str::trim` on a character list. -/
def rustTrim (cs : List Char) : List Char :=
  ((cs.dropWhile Char.isWhitespace).reverse.dropWhile Char.isWhitespace).reverse

/-- Rust `str::split_once(';')`: the characters before the first `';'`,
and — when a `';'` occurs — the characters after it. -/
def splitSemicolon : List Char → List Char × Option (List Char)
  | [] => ([], none)
  | c :: rest =>
    if c = ';' then ([], some rest)
    else
      let r := splitSemicolon rest
      (c :: r.1, r.2)

/-- Value of the token `intPart . fracPart` (either part possibly empty) as
an exact rational, with sign. -/
def tokenValue (neg : Bool) (intPart fracPart : List Char) : ℚ :=
  let ip : ℚ := (intPart.foldl (fun acc c => acc * 10 + (c.toNat - '0'.toNat)) 0 : ℕ)
  let fp : ℚ := ((fracPart.foldl (fun acc c => acc * 10 + (c.toNat - '0'.toNat)) 0 : ℕ) : ℚ) /
    (10 ^ fracPart.length : ℚ)
  (if neg then -1 else 1) * (ip + fp)

/-- Greedy match of `-?\d*\.?\d+` at the head of `cs` (the number part of
the parameter regex).  Returns the matched length together with its value,
or `none` when the regex cannot match here.  The `\.?` is dropped again
(backtracking) when no digit follows the dot. -/
def matchNumber (cs : List Char) : Option (ℕ × ℚ) :=
  let core : List Char → Option (ℕ × (Bool → ℚ)) := fun s =>
    let d1 := s.takeWhile Char.isDigit
    let r1 := s.dropWhile Char.isDigit
    match r1 with
    | '.' :: r2 =>
      let d2 := r2.takeWhile Char.isDigit
      if d2 ≠ [] then some (d1.length + 1 + d2.length, fun n => tokenValue n d1 d2)
      else if d1 ≠ [] then some (d1.length, fun n => tokenValue n d1 [])
      else none
    | _ =>
      if d1 ≠ [] then some (d1.length, fun n => tokenValue n d1 [])
      else none
  match cs with
  | '-' :: rest =>
    match core rest with
    | some (len, val) => some (len + 1, val true)
    | none => none
  | _ =>
    match core cs with
    | some (len, val) => some (len, val false)
    | none => none

/-- Scan of `captures_iter` for `([A-Za-z])(-?\d*\.?\d+)`: every match of a
letter followed by a number becomes a parameter, in left-to-right order,
except a match starting at string index 0 (the command token, which the
source skips).  `fuel` bounds the recursion; it is instantiated with the
length of the scanned string, which suffices since every step consumes at
least one character. -/
def scanParams : ℕ → List Char → ℕ → List (Char × ℚ)
  | 0, _, _ => []
  | _ + 1, [], _ => []
  | fuel + 1, c :: rest, i =>
    if c.isAlpha then
      match matchNumber rest with
      | some (len, v) =>
        (if i = 0 then [] else [(c, v)]) ++ scanParams fuel (rest.drop len) (i + 1 + len)
      | none => scanParams fuel rest (i + 1)
    else scanParams fuel rest (i + 1)

/-- Parsed G-code command (struct `GCodeCommand`, src/api/g_code.rs). -/
structure GCodeCommand where
  command_type : String
  command_number : ℤ
  parameters : List (Char × ℚ)
  comment : Option String
deriving DecidableEq, Repr

/-- `i32` parse of a digit string with the source's `unwrap_or(0)`: values
beyond `i32::MAX` fail to parse and fall back to `0`. -/
def parseI32 (digits : List Char) : ℤ :=
  let n := digits.foldl (fun acc c => acc * 10 + (c.toNat - '0'.toNat)) 0
  if n ≤ 2147483647 then (n : ℤ) else 0

/-- The code part a line is reduced to before the command-token match:
trim, split at the first `';'`, trim again.  (The source's early returns
for empty and full-comment lines yield an empty code part here.) -/
def codePart (line : String) : List Char :=
  rustTrim (splitSemicolon (rustTrim line.data)).1

/-- Whether `^([A-Za-z])(\d+)` matches: a leading ASCII letter immediately
followed by at least one digit. -/
def hasLeadingCommand : List Char → Bool
  | a :: b :: _ => a.isAlpha && b.isDigit
  | _ => false

/-- `parse_gcode_line` (src/api/g_code.rs lines 153–198). -/
def parse_gcode_line (line : String) : Option GCodeCommand :=
  let t := rustTrim line.data
  if t = [] then none
  else if t.head? = some ';' then none
  else
    let split := splitSemicolon t
    let code := rustTrim split.1
    let comment := split.2.map (fun cs => String.mk (rustTrim cs))
    match code with
    | a :: rest =>
      if a.isAlpha then
        let digits := rest.takeWhile Char.isDigit
        if digits = [] then none
        else
          some
            { command_type := String.mk [a.toUpper]
              command_number := parseI32 digits
              parameters := scanParams code.length code 0
              comment := comment }
      else none
    | [] => none

/-! ## Hardware calls and the command interpreter
(`interpret_gcode_movement`, src/api/g_code.rs lines 225–444)

Each session call the interpreter can issue is reified as a `HwCall`.
An oracle `hw : HwCall → Bool` states which calls succeed.  The source
invokes every session call through `.expect(..)`, so a failing call is a
Rust panic that tears down the surrounding task; it is modelled as an
`Except.error` carrying the failing call. -/

/-- A hardware call issued through the controller session during
interpretation. -/
inductive HwCall where
  | moveAbs (axisList : List ℕ) (posList : List ℚ)
  | setSpeed (axis : ℕ) (speed : ℚ)
  | getIdle (axis : ℕ)
  | converterRun (inverted : Bool)
  | converterStop
  | converterSetFreq (freq : ℕ)
deriving DecidableEq, Repr

/-- The session calls issued by the `G0`/`G1` parameter loop
(src/api/g_code.rs lines 238–273), in source order: `X`/`Y`/`Z` each issue
one absolute move on axis 0/1/2, `F` issues `zmc_set_speed` on axes 0, 1, 2,
and any other letter is ignored. -/
def movementCalls : List (Char × ℚ) → List HwCall
  | [] => []
  | (p, v) :: rest =>
    if p = 'X' then .moveAbs [0] [v] :: movementCalls rest
    else if p = 'Y' then .moveAbs [1] [v] :: movementCalls rest
    else if p = 'Z' then .moveAbs [2] [v] :: movementCalls rest
    else if p = 'F' then
      .setSpeed 0 v :: .setSpeed 1 v :: .setSpeed 2 v :: movementCalls rest
    else movementCalls rest

/-- The ordered list of session calls `interpret_gcode_movement` issues for
one command.  `G2`/`G3`, `G4`, `G28`, `G90`–`G92`, unknown `G` numbers,
`M84`, the temperature `M` codes and non-`G`/`M` commands only build a
descriptive string and issue no call. -/
def interpretCalls (cmd : GCodeCommand) : List HwCall :=
  if cmd.command_type = "G" then
    if cmd.command_number = 0 ∨ cmd.command_number = 1 then movementCalls cmd.parameters
    else []
  else if cmd.command_type = "M" then
    if cmd.command_number = 0 ∨ cmd.command_number = 1 then [.converterStop]
    else if cmd.command_number = 3 ∨ cmd.command_number = 4 then
      .converterRun (cmd.command_number = 4) ::
        (match cmd.parameters.find? (fun pv => pv.1 = 'S') with
         | some pv => [.converterSetFreq (rustCastU32 pv.2)]
         | none => [])
    else if cmd.command_number = 5 then [.converterStop]
    else []
  else []

/-- Run a list of hardware calls under the oracle `hw`; the first failing
call panics (every call site uses `.expect`). -/
def runCalls (hw : HwCall → Bool) : List HwCall → Except HwCall Unit
  | [] => .ok ()
  | c :: rest => if hw c then runCalls hw rest else .error c

/-! ## The execution loop (`GCodeManager::start`, src/api/g_code.rs 84–115)

`execute_one_line` (lines 130–139) parses the line; an unparseable line is
only logged and the function returns `Ok(())`.  A parsed command is
interpreted; the interpreter's return type is `()`, so `execute_one_line`
returns `Ok(())` whenever interpretation does not panic — its `Result`
error case is unreachable.  `zmc_wait_idle` (lines 201–222) polls
`zmc_get_idle` (through `.expect`) on axes 0, 1, 2 until all report idle;
under the static oracles `hw` (call success) and `idle` (reported value)
one sweep panics at the first axis whose `get_idle` call fails, returns
when every axis is idle, and otherwise repeats forever — the latter is
modelled as the result `false`. -/

/-- `execute_one_line`: `Except.error c` is a panic at hardware call `c`;
the inner `Except String Unit` is the function's Rust return value. -/
def executeOneLine (hw : HwCall → Bool) (line : String) :
    Except HwCall (Except String Unit) :=
  match parse_gcode_line line with
  | none => .ok (.ok ())
  | some cmd =>
    match runCalls hw (interpretCalls cmd) with
    | .ok _ => .ok (.ok ())
    | .error c => .error c

/-- One sweep of `zmc_wait_idle` under static oracles: panic at the first
failing `get_idle` call, otherwise report whether all axes are idle (a
`false` outcome makes the source loop forever). -/
def waitIdle (hw : HwCall → Bool) (idle : ℕ → Bool) (axes : List ℕ) :
    Except HwCall Bool :=
  match axes.find? (fun a => !hw (.getIdle a)) with
  | some a => .error (.getIdle a)
  | none => .ok (axes.all idle)

/-- Result of the spawned execution loop together with the cursor value it
stops at.  `hardError` is the loop's `break` on an `Err` from
`execute_one_line` (unreachable), `panicked` is a hardware-call panic
tearing the task down, and `stuck` marks a `zmc_wait_idle` that never
returns under the static oracles. -/
inductive RunOutcome where
  | completed (cursor : ℕ)
  | hardError (cursor : ℕ)
  | panicked (cursor : ℕ) (call : HwCall)
  | stuck (cursor : ℕ)
deriving DecidableEq, Repr

/-- The execution loop body over the lines not yet executed (`remaining` is
`lines.drop cursor`; the source's bound check `cursor >= lines.len()` is
the `[]` case).  Returns the outcome and the list of successive cursor
values published by `current_line.update`, in order. -/
def runLines (hw : HwCall → Bool) (idle : ℕ → Bool) :
    List String → ℕ → RunOutcome × List ℕ
  | [], cursor => (.completed cursor, [])
  | line :: rest, cursor =>
    match executeOneLine hw line with
    | .error c => (.panicked cursor c, [])
    | .ok (.error _) => (.hardError cursor, [])
    | .ok (.ok _) =>
      match waitIdle hw idle [0, 1, 2] with
      | .error c => (.panicked cursor c, [])
      | .ok false => (.stuck cursor, [])
      | .ok true =>
        let r := runLines hw idle rest (cursor + 1)
        (r.1, (cursor + 1) :: r.2)

/-- A run started from cursor 0 over the loaded program. -/
def runGCode (hw : HwCall → Bool) (idle : ℕ → Bool) (lines : List String) :
    RunOutcome × List ℕ :=
  runLines hw idle lines 0

/-! ## The `GCodeManager` task-handle state machine
(src/api/g_code.rs lines 84–126)

`start` errors when a handle is stored and otherwise spawns the loop and
stores its handle; natural completion of the loop leaves the stored handle
untouched; `stop` takes the handle out and aborts the task.  Methods are
modelled as atomic transitions.  `running` is the list of live background
tasks (by id), `spawned` counts every spawn ever made. -/

structure MgrState where
  handle : Option ℕ
  running : List ℕ
  nextId : ℕ
  spawned : ℕ
deriving DecidableEq, Repr

/-- Manager state at construction (`GCodeManager::new`). -/
def MgrState.init : MgrState := ⟨none, [], 0, 0⟩

/-- `GCodeManager::start`: if a handle is stored, fail with
`AlreadyRunning`; else spawn the execution loop and store its handle. -/
def mgrStart (s : MgrState) : Except String Unit × MgrState :=
  if s.handle.isSome then (.error "G-code execution already in progress", s)
  else
    (.ok (),
      { handle := some s.nextId
        running := s.nextId :: s.running
        nextId := s.nextId + 1
        spawned := s.spawned + 1 })

/-- Natural completion of the loop task `id` (the loop breaks out and the
task ends).  The loop body never touches `thread_handle`. -/
def mgrTaskFinish (s : MgrState) (id : ℕ) : MgrState :=
  { s with running := s.running.erase id }

/-- `GCodeManager::stop`: take the stored handle (leaving `None`) and abort
the task it names, if any. -/
def mgrStop (s : MgrState) : MgrState :=
  match s.handle with
  | some id => { s with handle := none, running := s.running.erase id }
  | none => s

/-- Events the manager state machine reacts to. -/
inductive MgrEvent where
  | start
  | finish (id : ℕ)
  | stop
deriving DecidableEq, Repr

def mgrStep (s : MgrState) : MgrEvent → MgrState
  | .start => (mgrStart s).2
  | .finish id => mgrTaskFinish s id
  | .stop => mgrStop s

/-- State after a sequence of events from the freshly constructed manager. -/
def mgrRun (evs : List MgrEvent) : MgrState :=
  evs.foldl mgrStep MgrState.init

/-- Inductive invariant of the manager: at most one live task, and a live
task's id is the stored handle. -/
def MgrInv (s : MgrState) : Prop :=
  s.running = [] ∨ ∃ i, s.running = [i] ∧ s.handle = some i

/-! ## Guarded session entry points (src/api/zmc.rs)

`with_controller` (lines 211–228) rejects a missing or closed controller
before running the operation; `zmc_move` (357–374) and `zmc_set_speed`
(377–389) validate their arguments before ever entering
`with_controller`.  Each entry point returns its Rust result together with
the list of driver calls actually issued. -/

/-- A raw driver call forwarded by `with_controller`. -/
inductive DirectCall where
  | directMove (n : ℕ) (axisList : List ℕ) (distList : List ℚ)
  | directMoveAbs (n : ℕ) (axisList : List ℕ) (posList : List ℚ)
  | directSetSpeed (axis : ℕ) (speed : ℚ)
deriving DecidableEq, Repr

/-- Controller session state: `None`, `Some(controller)` with the link not
open, or `Some(controller)` with the link open. -/
inductive CtrlState where
  | uninitialized
  | notOpen
  | opened
deriving DecidableEq, Repr

/-- `ZmcManager::with_controller`: run the operation (whose driver calls
are `calls`) only when a controller is initialized and open. -/
def with_controller (ctrl : CtrlState) (calls : List DirectCall) :
    Except String Unit × List DirectCall :=
  match ctrl with
  | .uninitialized => (.error "Controller is not initialized", [])
  | .notOpen => (.error "Controller is not open", [])
  | .opened => (.ok (), calls)

/-- `zmc_move` (relative move): length and non-emptiness guards precede any
hardware access. -/
def zmc_move (ctrl : CtrlState) (axis_list : List ℕ) (pos_list : List ℚ) :
    Except String Unit × List DirectCall :=
  if axis_list.length ≠ pos_list.length then
    (.error "Axis list and position list must have the same length", [])
  else if axis_list = [] then
    (.error "Axis list cannot be empty", [])
  else with_controller ctrl [.directMove axis_list.length axis_list pos_list]

/-- `zmc_move_abs` (absolute move): no argument guard, straight through
`with_controller`. -/
def zmc_move_abs (ctrl : CtrlState) (axis_list : List ℕ) (pos_list : List ℚ) :
    Except String Unit × List DirectCall :=
  with_controller ctrl [.directMoveAbs axis_list.length axis_list pos_list]

/-- `zmc_set_speed`: the negativity guard precedes any hardware access. -/
def zmc_set_speed (ctrl : CtrlState) (axis : ℕ) (speed : ℚ) :
    Except String Unit × List DirectCall :=
  if speed < 0 then (.error "Speed cannot be negative", [])
  else with_controller ctrl [.directSetSpeed axis speed]

/-! ## Bitmap raster (src/utils/bitmap.rs)

The raster is a byte list in RGBA order.  `set_pixel` is modelled twice,
over the two number domains the callers live in: the computable `ℚ` model
(`Bitmap.set_pixel`) for the straight-line and status paths, and an `ℝ`
model (`Bitmap.setPixelR`) for the arc path, whose coordinates come from
`sin`/`cos`.  Both share the pixel-plotting core `Bitmap.plotAt` and the
color derivation `colorOf`. -/

/-- The z → RGBA color derivation of `set_pixel`
(src/utils/bitmap.rs lines 52–92). -/
def colorOf (z : ℚ) : ℕ × ℕ × ℕ × ℕ :=
  let normalized_z := rustClamp (-z / 4) 0 1
  let hue := rustFmod (normalized_z * 360) 360
  let saturation := 7 / 10 + normalized_z * (3 / 10)
  let lightness : ℚ := 1 / 2
  let c := (1 - |2 * lightness - 1|) * saturation
  let xv := c * (1 - |rustFmod (hue / 60) 2 - 1|)
  let m := lightness - c / 2
  let rgb :=
    if hue < 60 then (c, xv, (0 : ℚ))
    else if hue < 120 then (xv, c, 0)
    else if hue < 180 then (0, c, xv)
    else if hue < 240 then (0, xv, c)
    else if hue < 300 then (xv, 0, c)
    else (c, 0, xv)
  (rustCastU8 ((rgb.1 + m) * 255), rustCastU8 ((rgb.2.1 + m) * 255),
    rustCastU8 ((rgb.2.2 + m) * 255), 255)

/-- The `Bitmap` struct (src/utils/bitmap.rs lines 5–16). -/
structure Bitmap where
  width : ℕ
  height : ℕ
  data : List ℕ
  scale : ℚ
  origin_x : ℕ
  origin_y : ℕ
deriving DecidableEq, Repr

/-- `Bitmap::new`: a `[255,255,255,0]` seed resized to `w*h*4` bytes with
zero fill, origin at the raster center. -/
def Bitmap.new (w h : ℕ) (scale : ℚ) : Bitmap :=
  { width := w
    height := h
    data := rustResize [255, 255, 255, 0] (w * h * 4) 0
    scale := scale
    origin_x := w / 2
    origin_y := h / 2 }

/-- The guarded four-byte RGBA store of `set_pixel`
(src/utils/bitmap.rs lines 95–103): nothing is written unless
`idx + 3 < data.len()`. -/
def writeColor (data : List ℕ) (idx : ℕ) (color : ℕ × ℕ × ℕ × ℕ) : List ℕ :=
  if idx + 3 < data.length then
    ((((data.set idx color.1).set (idx + 1) color.2.1).set
        (idx + 2) color.2.2.1).set (idx + 3) color.2.2.2)
  else data

/-- Plot at already-cast pixel coordinates: drop the write when
`px >= width || py >= height`, else store the color at
`(py * width + px) * 4`. -/
def Bitmap.plotAt (b : Bitmap) (px py : ℕ) (color : ℕ × ℕ × ℕ × ℕ) : Bitmap :=
  if px ≥ b.width ∨ py ≥ b.height then b
  else { b with data := writeColor b.data ((py * b.width + px) * 4) color }

/-- `Bitmap::set_pixel` (src/utils/bitmap.rs lines 41–104) over exact
rational machine coordinates.  The pixel coordinates are produced by the
saturating `as usize` cast — a negative projection saturates to 0. -/
def Bitmap.set_pixel (b : Bitmap) (x y z : ℚ) : Bitmap :=
  b.plotAt (rustCastUsize ((b.origin_x : ℚ) + x * b.scale))
    (rustCastUsize ((b.origin_y : ℚ) - y * b.scale)) (colorOf z)

/-- The byte pattern `clear` writes (src/utils/bitmap.rs lines 130–138):
each complete four-byte group becomes transparent white, a trailing
incomplete group is untouched. -/
def clearData : List ℕ → List ℕ
  | _ :: _ :: _ :: _ :: rest => 255 :: 255 :: 255 :: 0 :: clearData rest
  | other => other

/-- `Bitmap::clear`. -/
def Bitmap.clear (b : Bitmap) : Bitmap :=
  { b with data := clearData b.data }

/-- The interpolation points of `draw_line` (src/api/g_code.rs lines
447–464): `steps = max(|dx|, |dy|, 1) * 4` as a float, iteration bound
`steps as usize` (the parameter `t` divides by the unfloored float). -/
def linePoints (x1 y1 z1 x2 y2 z2 : ℚ) : List (ℚ × ℚ × ℚ) :=
  let dx := |x2 - x1|
  let dy := |y2 - y1|
  let steps : ℚ := max (max dx dy) 1 * 4
  let n := rustCastUsize steps
  (List.range (n + 1)).map fun i =>
    let t := (i : ℚ) / steps
    (x1 + (x2 - x1) * t, y1 + (y2 - y1) * t, z1 + (z2 - z1) * t)

/-- `draw_line` (src/api/g_code.rs lines 447–464). -/
def Bitmap.draw_line (b : Bitmap) (x1 y1 z1 x2 y2 z2 : ℚ) : Bitmap :=
  (linePoints x1 y1 z1 x2 y2 z2).foldl
    (fun acc p => acc.set_pixel p.1 p.2.1 p.2.2) b

/-- Rust `as usize` on a (finite) real value: truncate toward zero and
saturate to `[0, 2^64 - 1]`. -/
noncomputable def realCastUsize (r : ℝ) : ℕ :=
  min (Int.toNat ⌊r⌋) (2 ^ 64 - 1)

/-- `f32::atan2`: `y.atan2(x)` is the argument of the complex number
`x + y·i`, in `(-π, π]`. -/
noncomputable def atan2 (y x : ℝ) : ℝ :=
  Complex.arg ⟨x, y⟩

/-- `Bitmap::set_pixel` on real coordinates (the arc path): same pixel
cast, bounds check and store as the rational model. -/
noncomputable def Bitmap.setPixelR (b : Bitmap) (x y : ℝ) (z : ℚ) : Bitmap :=
  b.plotAt (realCastUsize ((b.origin_x : ℝ) + x * (b.scale : ℝ)))
    (realCastUsize ((b.origin_y : ℝ) - y * (b.scale : ℝ))) (colorOf z)

/-- The plotted points of `draw_arc` (src/api/g_code.rs lines 468–532).
Start/end angles come from `atan2` against the center `(x1+i, y1+j)`, the
radius from the center-to-start distance.  After a direction-dependent
provisional step, the source recomputes
`steps = max(|endA-startA| / |step|, 50) as usize` and then
`angle_step = (endA - startA) / steps`, negated when clockwise; iteration
`k` plots at angle `startA + k * angle_step` (exact-arithmetic model of the
accumulated addition) with `z` interpolated linearly in `k / steps`. -/
noncomputable def arcPoints (x1 y1 z1 x2 y2 z2 ci cj : ℚ) (cw : Bool) :
    List (ℝ × ℝ × ℚ) :=
  let cx : ℝ := (x1 : ℝ) + (ci : ℝ)
  let cy : ℝ := (y1 : ℝ) + (cj : ℝ)
  let startA := atan2 ((y1 : ℝ) - cy) ((x1 : ℝ) - cx)
  let endA := atan2 ((y2 : ℝ) - cy) ((x2 : ℝ) - cx)
  let radius := Real.sqrt (((x1 : ℝ) - cx) ^ 2 + ((y1 : ℝ) - cy) ^ 2)
  let step0 : ℝ :=
    if cw then
      if endA > startA then -(2 * Real.pi - (endA - startA)) / 100
      else -(startA - endA) / 100
    else
      if endA < startA then (2 * Real.pi - (startA - endA)) / 100
      else (endA - startA) / 100
  let steps : ℕ := realCastUsize (max (|endA - startA| / |step0|) 50)
  let stepF : ℝ := (if cw then -1 else 1) * ((endA - startA) / (steps : ℝ))
  (List.range (steps + 1)).map fun (k : ℕ) =>
    (cx + radius * Real.cos (startA + (k : ℝ) * stepF),
      cy + radius * Real.sin (startA + (k : ℝ) * stepF),
      z1 + (z2 - z1) * ((k : ℚ) / (steps : ℚ)))

/-- `draw_arc` (src/api/g_code.rs lines 468–532). -/
noncomputable def Bitmap.draw_arc (b : Bitmap) (x1 y1 z1 x2 y2 z2 ci cj : ℚ)
    (cw : Bool) : Bitmap :=
  (arcPoints x1 y1 z1 x2 y2 z2 ci cj cw).foldl
    (fun acc p => acc.setPixelR p.1 p.2.1 p.2.2) b

/-! ## Preview replay
(`preview_gcode_movement` lines 535–636, `generate_path_preview` lines
52–82 of src/api/g_code.rs) -/

/-- Simulated tool position of the preview. -/
structure ToolPos where
  x : ℚ
  y : ℚ
  z : ℚ
deriving DecidableEq, Repr

/-- The `G0`/`G1` preview parameter fold: `X`/`Y`/`Z` set the target
coordinate (last occurrence wins) and flag movement. -/
def g01Target (st : ToolPos) (params : List (Char × ℚ)) : ToolPos × Bool :=
  params.foldl
    (fun acc pv =>
      match pv.1 with
      | 'X' => ({ acc.1 with x := pv.2 }, true)
      | 'Y' => ({ acc.1 with y := pv.2 }, true)
      | 'Z' => ({ acc.1 with z := pv.2 }, true)
      | _ => acc)
    (st, false)

/-- The `G2`/`G3` preview parameter fold: target, center offsets `I`/`J`,
and the movement flag — which only `X` and `Y` set. -/
def arcTarget (st : ToolPos) (params : List (Char × ℚ)) :
    ToolPos × ℚ × ℚ × Bool :=
  params.foldl
    (fun acc pv =>
      match pv.1 with
      | 'X' => ({ acc.1 with x := pv.2 }, acc.2.1, acc.2.2.1, true)
      | 'Y' => ({ acc.1 with y := pv.2 }, acc.2.1, acc.2.2.1, true)
      | 'Z' => ({ acc.1 with z := pv.2 }, acc.2.1, acc.2.2.1, acc.2.2.2)
      | 'I' => (acc.1, pv.2, acc.2.2.1, acc.2.2.2)
      | 'J' => (acc.1, acc.2.1, pv.2, acc.2.2.2)
      | _ => acc)
    (st, 0, 0, false)

/-- `preview_gcode_movement`: one command against the bitmap and the
simulated position.  Non-`G` commands and other `G` numbers are ignored. -/
noncomputable def previewStep (cmd : GCodeCommand) (b : Bitmap)
    (st : ToolPos) : Bitmap × ToolPos :=
  if cmd.command_type = "G" then
    if cmd.command_number = 0 ∨ cmd.command_number = 1 then
      let tgt := g01Target st cmd.parameters
      if tgt.2 then
        (b.draw_line st.x st.y st.z tgt.1.x tgt.1.y tgt.1.z, tgt.1)
      else (b, st)
    else if cmd.command_number = 2 ∨ cmd.command_number = 3 then
      let tgt := arcTarget st cmd.parameters
      if tgt.2.2.2 then
        (b.draw_arc st.x st.y st.z tgt.1.x tgt.1.y tgt.1.z tgt.2.1 tgt.2.2.1
          (cmd.command_number = 2), tgt.1)
      else (b, st)
    else (b, st)
  else (b, st)

/-- `GCodeManager::generate_path_preview`: clear the bitmap, replay every
parseable line from the simulated position `(0,0,0)`.  No session call
occurs anywhere on this path; the result is the final raster. -/
noncomputable def generatePreview (lines : List String) (b : Bitmap) : Bitmap :=
  (lines.foldl
    (fun acc line =>
      match parse_gcode_line line with
      | some cmd => previewStep cmd acc.1 acc.2
      | none => acc)
    (b.clear, ({ x := 0, y := 0, z := 0 } : ToolPos))).1

/-! ## Theorems -/

/-- Helper: the manager invariant holds initially. -/
theorem mgrInv_init : MgrInv MgrState.init :=
  Or.inl rfl

/-- Helper: the manager invariant is preserved by every event. -/
theorem mgrInv_step (s : MgrState) (e : MgrEvent) (h : MgrInv s) :
    MgrInv (mgrStep s e) := by
  cases e with
  | start =>
    by_cases hh : s.handle.isSome
    · simpa [mgrStep, mgrStart, hh] using h
    · rcases h with h0 | ⟨i, hrun, hhandle⟩
      · simp [mgrStep, mgrStart, hh, MgrInv, h0]
      · rw [hhandle] at hh; simp at hh
  | finish id =>
    rcases h with h0 | ⟨i, hrun, hhandle⟩
    · simp [mgrStep, mgrTaskFinish, MgrInv, h0]
    · by_cases hid : i = id
      · subst hid
        simp [mgrStep, mgrTaskFinish, MgrInv, hrun]
      · right
        exact ⟨i, by simp [mgrStep, mgrTaskFinish, hrun, List.erase_cons, hid], hhandle⟩
  | stop =>
    rcases hs : s.handle with _ | id
    · simpa [mgrStep, mgrStop, hs] using h
    · rcases h with h0 | ⟨i, hrun, hhandle⟩
      · simp [mgrStep, mgrStop, hs, MgrInv, h0]
      · rw [hhandle] at hs
        cases hs
        simp [mgrStep, mgrStop, hhandle, MgrInv, hrun]

/-- Helper: the manager invariant holds in every reachable state. -/
theorem mgrInv_run (evs : List MgrEvent) : MgrInv (mgrRun evs) := by
  suffices h : ∀ s, MgrInv s → MgrInv (evs.foldl mgrStep s) from h _ mgrInv_init
  induction evs with
  | nil => exact fun s hs => hs
  | cons e rest ih => exact fun s hs => ih _ (mgrInv_step s e hs)

/-- Claim C4: calling `start()` while an execution task is already active
(a handle is stored) returns the `AlreadyRunning` error with the state —
in particular the spawn counter — unchanged, so no second execution loop
is spawned; and along every event sequence of the manager at most one
runner background task is alive. -/
theorem c4_start_while_running_rejected :
    (∀ (s : MgrState) (h : ℕ), s.handle = some h →
      mgrStart s = (.error "G-code execution already in progress", s)) ∧
    (∀ evs : List MgrEvent, (mgrRun evs).running.length ≤ 1) := by
  constructor
  · intro s h hh
    simp [mgrStart, hh]
  · intro evs
    rcases mgrInv_run evs with h0 | ⟨i, hrun, _⟩
    · simp [h0]
    · simp [hrun]

/-- Witness for C4 at a concrete state and event list. -/
theorem c4_start_while_running_rejected_witness :
    mgrStart ⟨some 5, [5], 6, 1⟩ =
      (.error "G-code execution already in progress", ⟨some 5, [5], 6, 1⟩) ∧
    (mgrRun [.start, .start, .start]).running.length ≤ 1 :=
  ⟨c4_start_while_running_rejected.1 ⟨some 5, [5], 6, 1⟩ 5 rfl,
    c4_start_while_running_rejected.2 [.start, .start, .start]⟩

/-- Claim C9: natural completion of the execution loop leaves the stored
handle untouched, so `start()` keeps failing with the already-in-progress
error afterwards; only `stop()` clears the handle, after which `start()`
succeeds again. -/
theorem c9_handle_survives_completion :
    (∀ (s : MgrState) (id : ℕ), (mgrTaskFinish s id).handle = s.handle) ∧
    (∀ (s : MgrState) (id h : ℕ), s.handle = some h →
      (mgrStart (mgrTaskFinish s id)).1 =
        .error "G-code execution already in progress") ∧
    (∀ s : MgrState, (mgrStop s).handle = none) ∧
    (∀ s : MgrState, (mgrStart (mgrStop s)).1 = .ok ()) := by
  refine ⟨fun s id => rfl, fun s id h hh => ?_, fun s => ?_, fun s => ?_⟩
  · simp [mgrStart, mgrTaskFinish, hh]
  · cases hs : s.handle <;> simp [mgrStop, hs]
  · have hnone : (mgrStop s).handle = none := by
      cases hs : s.handle <;> simp [mgrStop, hs]
    simp [mgrStart, hnone]

/-- Witness for C9 at a concrete state. -/
theorem c9_handle_survives_completion_witness :
    (mgrTaskFinish ⟨some 0, [0], 1, 1⟩ 0).handle = some 0 ∧
    (mgrStart (mgrTaskFinish ⟨some 0, [0], 1, 1⟩ 0)).1 =
      .error "G-code execution already in progress" ∧
    (mgrStop ⟨some 0, [], 1, 1⟩).handle = none ∧
    (mgrStart (mgrStop ⟨some 0, [], 1, 1⟩)).1 = .ok () :=
  ⟨c9_handle_survives_completion.1 ⟨some 0, [0], 1, 1⟩ 0,
    c9_handle_survives_completion.2.1 ⟨some 0, [0], 1, 1⟩ 0 0 rfl,
    c9_handle_survives_completion.2.2.1 ⟨some 0, [], 1, 1⟩,
    c9_handle_survives_completion.2.2.2 ⟨some 0, [], 1, 1⟩⟩

/-- Claim C10: `zmc_move` rejects a length mismatch or an empty axis list
with an error and no driver call, and `zmc_set_speed` rejects every
negative speed with an error and no driver call — whatever the controller
state. -/
theorem c10_argument_guards_precede_hardware :
    (∀ (ctrl : CtrlState) (al : List ℕ) (pl : List ℚ),
      al.length ≠ pl.length ∨ al = [] →
      (∃ e, (zmc_move ctrl al pl).1 = .error e) ∧ (zmc_move ctrl al pl).2 = []) ∧
    (∀ (ctrl : CtrlState) (axis : ℕ) (speed : ℚ), speed < 0 →
      zmc_set_speed ctrl axis speed = (.error "Speed cannot be negative", [])) := by
  constructor
  · intro ctrl al pl hbad
    by_cases hlen : al.length = pl.length
    · rcases hbad with hbad | hbad
      · exact absurd hlen hbad
      · subst hbad
        simp [zmc_move, hlen.symm]
    · simp [zmc_move, hlen]
  · intro ctrl axis speed hneg
    simp [zmc_set_speed, hneg]

/-- Witness for C10 at concrete arguments. -/
theorem c10_argument_guards_precede_hardware_witness :
    ((∃ e, (zmc_move .opened [0] []).1 = .error e) ∧
      (zmc_move .opened [0] []).2 = []) ∧
    zmc_set_speed .opened 2 (-1) = (.error "Speed cannot be negative", []) :=
  ⟨c10_argument_guards_precede_hardware.1 .opened [0] [] (Or.inl (by decide)),
    c10_argument_guards_precede_hardware.2 .opened 2 (-1) (by norm_num)⟩

/-- Helper: the imperative `G0`/`G1` parameter loop equals a per-parameter
`flatMap` of issued calls. -/
theorem movementCalls_eq_flatMap (ps : List (Char × ℚ)) :
    movementCalls ps = ps.flatMap (fun pv =>
      if pv.1 = 'X' then [HwCall.moveAbs [0] [pv.2]]
      else if pv.1 = 'Y' then [HwCall.moveAbs [1] [pv.2]]
      else if pv.1 = 'Z' then [HwCall.moveAbs [2] [pv.2]]
      else if pv.1 = 'F' then
        [HwCall.setSpeed 0 pv.2, HwCall.setSpeed 1 pv.2, HwCall.setSpeed 2 pv.2]
      else []) := by
  induction ps with
  | nil => rfl
  | cons pv rest ih =>
    obtain ⟨p, v⟩ := pv
    simp only [movementCalls, List.flatMap_cons]
    split_ifs <;> simp [ih]

/-- Claim C5: interpreting a `G0`/`G1` command issues, per parameter and in
parameter order, exactly one absolute move on axis 0/1/2 for `X`/`Y`/`Z`
with the parameter's value, speed commands on all three axes for `F`, and
nothing for other letters; an axis whose letter appears in no parameter
receives no move command. -/
theorem c5_g01_parameter_moves :
    ∀ cmd : GCodeCommand, cmd.command_type = "G" →
      cmd.command_number = 0 ∨ cmd.command_number = 1 →
      (interpretCalls cmd = cmd.parameters.flatMap (fun pv =>
        if pv.1 = 'X' then [HwCall.moveAbs [0] [pv.2]]
        else if pv.1 = 'Y' then [HwCall.moveAbs [1] [pv.2]]
        else if pv.1 = 'Z' then [HwCall.moveAbs [2] [pv.2]]
        else if pv.1 = 'F' then
          [HwCall.setSpeed 0 pv.2, HwCall.setSpeed 1 pv.2, HwCall.setSpeed 2 pv.2]
        else [])) ∧
      (∀ a : ℕ, a < 3 →
        (∀ pv ∈ cmd.parameters,
          pv.1 ≠ (if a = 0 then 'X' else if a = 1 then 'Y' else 'Z')) →
        ∀ pos : List ℚ, HwCall.moveAbs [a] pos ∉ interpretCalls cmd) := by
  intro cmd hG hnum
  have hcalls : interpretCalls cmd = movementCalls cmd.parameters := by
    rcases hnum with h | h <;> simp [interpretCalls, hG, h]
  constructor
  · rw [hcalls, movementCalls_eq_flatMap]
  · intro a ha hno pos hmem
    rw [hcalls, movementCalls_eq_flatMap, List.mem_flatMap] at hmem
    obtain ⟨pv, hpv, hc⟩ := hmem
    have hne := hno pv hpv
    interval_cases a <;> split_ifs at hc <;> simp_all

/-- Witness for C5 at a concrete `G1` command. -/
theorem c5_g01_parameter_moves_witness :
    interpretCalls ⟨"G", 1, [('X', 10), ('F', 200)], none⟩ =
      [HwCall.moveAbs [0] [10], HwCall.setSpeed 0 200,
        HwCall.setSpeed 1 200, HwCall.setSpeed 2 200] ∧
    HwCall.moveAbs [1] [10] ∉
      interpretCalls ⟨"G", 1, [('X', 10), ('F', 200)], none⟩ := by
  have h := c5_g01_parameter_moves ⟨"G", 1, [('X', 10), ('F', 200)], none⟩ rfl
    (Or.inr rfl)
  refine ⟨?_, h.2 1 (by norm_num) ?_ [10]⟩
  · rw [h.1]
    with_unfolding_all rfl
  · intro pv hpv
    simp only [List.mem_cons, List.not_mem_nil, or_false] at hpv
    rcases hpv with h1 | h1 <;> subst h1 <;> decide

/-- Helper: dropping a prefix by a predicate that fails on the final
element keeps that final element last, and keeps the list nonempty. -/
theorem dropWhile_concat_last (p : Char → Bool) (c : Char) (hc : p c = false) :
    ∀ l : List Char,
      ((l ++ [c]).dropWhile p).getLast? = some c ∧ (l ++ [c]).dropWhile p ≠ [] := by
  intro l
  induction l with
  | nil => simp [List.dropWhile, hc]
  | cons a l' ih =>
    by_cases ha : p a
    · simpa [List.dropWhile_cons, ha] using ih
    · rw [List.cons_append, List.dropWhile_cons]
      simp only [ha, if_false, Bool.false_eq_true]
      exact ⟨by rw [← List.cons_append, List.getLast?_concat], by simp⟩

/-- Helper: trimming a string whose first character is not whitespace keeps
that character in front. -/
theorem rustTrim_head_not_ws (c : Char) (cs : List Char)
    (hc : c.isWhitespace = false) :
    rustTrim (c :: cs) ≠ [] ∧ (rustTrim (c :: cs)).head? = some c := by
  unfold rustTrim
  simp only [List.dropWhile_cons, hc, Bool.false_eq_true, if_false,
    List.reverse_cons]
  obtain ⟨hlast, hne⟩ := dropWhile_concat_last Char.isWhitespace c hc cs.reverse
  refine ⟨fun h => hne ?_, by rw [List.head?_reverse]; exact hlast⟩
  simpa using congrArg List.reverse h

/-- Helper: trimming the empty character list. -/
theorem rustTrim_nil : rustTrim [] = [] := rfl

/-- Helper: the parser yields `none` exactly when no leading
letter-plus-digits command token exists on the code part of the line. -/
theorem parse_none_iff_no_command (line : String) :
    parse_gcode_line line = none ↔ hasLeadingCommand (codePart line) = false := by
  by_cases ht : rustTrim line.data = []
  · simp [parse_gcode_line, codePart, ht, splitSemicolon, rustTrim_nil,
      hasLeadingCommand]
  · by_cases hsc : (rustTrim line.data).head? = some ';'
    · obtain ⟨t', ht'⟩ : ∃ t', rustTrim line.data = ';' :: t' := by
        cases h : rustTrim line.data with
        | nil => exact absurd h ht
        | cons a as =>
          rw [h] at hsc
          simp at hsc
          exact ⟨as, by rw [hsc]⟩
      simp [parse_gcode_line, codePart, ht', splitSemicolon, rustTrim_nil,
        hasLeadingCommand]
    · simp only [parse_gcode_line, codePart]
      rw [if_neg ht, if_neg hsc]
      rcases hcode : rustTrim (splitSemicolon (rustTrim line.data)).1 with _ | ⟨a, rest⟩
      · simp [hasLeadingCommand]
      · by_cases halpha : a.isAlpha
        · rcases rest with _ | ⟨b, rest'⟩
          · simp [halpha, hasLeadingCommand]
          · by_cases hdig : b.isDigit
            · simp [halpha, hdig, hasLeadingCommand, List.takeWhile_cons]
            · simp [halpha, hdig, hasLeadingCommand, List.takeWhile_cons]
        · simp only [Bool.not_eq_true] at halpha
          rcases rest with _ | ⟨b, rest'⟩ <;> simp [halpha, hasLeadingCommand]

/-- Claim C6: `"G1 X10 Y-5.5 F200 ; move"` parses to kind `G`, number 1,
parameters `[('X',10), ('Y',-5.5), ('F',200)]` in that order and comment
`"move"`; the empty line and any line starting with `';'` parse to `none`;
and the parser returns `none` exactly when no leading letter-plus-digits
command token exists. -/
theorem c6_parser_examples_and_none_characterization :
    parse_gcode_line "G1 X10 Y-5.5 F200 ; move" =
      some { command_type := "G", command_number := 1,
             parameters := [('X', 10), ('Y', -(11 / 2 : ℚ)), ('F', 200)],
             comment := some "move" } ∧
    parse_gcode_line "" = none ∧
    (∀ line : String, line.data.head? = some ';' → parse_gcode_line line = none) ∧
    (∀ line : String,
      parse_gcode_line line = none ↔ hasLeadingCommand (codePart line) = false) := by
  refine ⟨by with_unfolding_all rfl, by with_unfolding_all rfl, ?_,
    parse_none_iff_no_command⟩
  intro line hline
  obtain ⟨cs, hcs⟩ : ∃ cs, line.data = ';' :: cs := by
    cases h : line.data with
    | nil => rw [h] at hline; simp at hline
    | cons a as =>
      rw [h] at hline
      simp at hline
      exact ⟨as, by rw [hline]⟩
  obtain ⟨hne, hhead⟩ := rustTrim_head_not_ws ';' cs (by decide)
  simp only [parse_gcode_line, hcs]
  rw [if_neg hne, if_pos hhead]

/-- Witness for C6 at concrete lines. -/
theorem c6_parser_examples_witness :
    parse_gcode_line "; just a comment" = none ∧
    (parse_gcode_line "%%" = none ↔ hasLeadingCommand (codePart "%%") = false) :=
  ⟨c6_parser_examples_and_none_characterization.2.2.1 "; just a comment"
      (by decide),
    c6_parser_examples_and_none_characterization.2.2.2 "%%"⟩

/-- Helper: when every remaining line interprets without a panic and the
idle wait returns, the loop executes each line exactly once and publishes
consecutive cursor values. -/
theorem runLines_all_ok (hw : HwCall → Bool) (idle : ℕ → Bool)
    (hidle : waitIdle hw idle [0, 1, 2] = .ok true) :
    ∀ (ls : List String) (cursor : ℕ),
      (∀ l ∈ ls, executeOneLine hw l = .ok (.ok ())) →
      runLines hw idle ls cursor =
        (.completed (cursor + ls.length), List.range' (cursor + 1) ls.length) := by
  intro ls
  induction ls with
  | nil => intro cursor _; simp [runLines]
  | cons line rest ih =>
    intro cursor hok
    have h1 : executeOneLine hw line = .ok (.ok ()) := hok line (by simp)
    have h2 : ∀ l ∈ rest, executeOneLine hw l = .ok (.ok ()) := fun l hl =>
      hok l (by simp [hl])
    simp only [runLines, h1, hidle, ih (cursor + 1) h2, List.length_cons]
    rw [List.range'_succ]
    have harg : cursor + 1 + rest.length = cursor + (rest.length + 1) := by omega
    rw [harg]

/-- Helper: consecutive integer runs are chains of `+1` steps. -/
theorem chain'_range'_consec (n : ℕ) :
    ∀ s, List.Chain' (fun a b => b = a + 1) (List.range' s n) := by
  induction n with
  | zero => intro s; simp
  | succ m ih =>
    intro s
    rw [List.range'_succ]
    rcases m with _ | m'
    · simp
    · rw [List.range'_succ, List.chain'_cons]
      refine ⟨rfl, ?_⟩
      rw [← List.range'_succ]
      exact ih (s + 1)

/-- Claim C3: when every line of the program interprets without a hardware
failure (and the axes report idle), the run from cursor 0 completes with
the cursor at `N = lines.length`, publishing the cursor values
`1, 2, …, N` — one increment per executed line, consecutive with no skips,
and never outside `[0, N]`. -/
theorem c3_successful_run_cursor_monotone :
    ∀ (hw : HwCall → Bool) (idle : ℕ → Bool) (lines : List String),
      (∀ l ∈ lines, executeOneLine hw l = .ok (.ok ())) →
      waitIdle hw idle [0, 1, 2] = .ok true →
      runGCode hw idle lines =
        (.completed lines.length, List.range' 1 lines.length) ∧
      List.Chain' (fun a b => b = a + 1) (0 :: (runGCode hw idle lines).2) ∧
      (∀ c ∈ 0 :: (runGCode hw idle lines).2, c ≤ lines.length) := by
  intro hw idle lines hok hidle
  have hrun := runLines_all_ok hw idle hidle lines 0 hok
  have hrun' : runGCode hw idle lines =
      (.completed lines.length, List.range' 1 lines.length) := by
    simpa [runGCode] using hrun
  refine ⟨hrun', ?_, ?_⟩
  · rw [hrun']
    rcases hl : lines.length with _ | m
    · simp
    · rw [List.range'_succ, List.chain'_cons]
      refine ⟨rfl, ?_⟩
      rw [← List.range'_succ]
      exact chain'_range'_consec (m + 1) 1
  · intro c hc
    rw [hrun'] at hc
    rcases List.mem_cons.mp hc with h | h
    · omega
    · obtain ⟨i, hi, rfl⟩ := List.mem_range'.mp h
      omega

/-- Witness for C3 at a concrete two-line program with an all-success
hardware oracle. -/
theorem c3_successful_run_cursor_monotone_witness :
    (∀ l ∈ ["G1 X10", "M5"],
      executeOneLine (fun _ => true) l = .ok (.ok ())) ∧
    runGCode (fun _ => true) (fun _ => true) ["G1 X10", "M5"] =
      (.completed 2, [1, 2]) := by
  have h1 : ∀ l ∈ ["G1 X10", "M5"],
      executeOneLine (fun _ => true) l = .ok (.ok ()) := by
    intro l hl
    simp only [List.mem_cons, List.not_mem_nil, or_false] at hl
    rcases hl with rfl | rfl <;> with_unfolding_all rfl
  have h2 : waitIdle (fun _ => true) (fun _ => true) [0, 1, 2] = .ok true := rfl
  refine ⟨h1, ?_⟩
  have h3 := (c3_successful_run_cursor_monotone (fun _ => true) (fun _ => true)
    ["G1 X10", "M5"] h1 h2).1
  simpa using h3

/-- Helper: if the first `k` lines interpret without a panic and the
interpretation of line `k` panics at hardware call `c`, the loop tears
down at cursor `cursor + k`, having published only the `k` increments for
the earlier lines. -/
theorem runLines_panics (hw : HwCall → Bool) (idle : ℕ → Bool)
    (hidle : waitIdle hw idle [0, 1, 2] = .ok true) :
    ∀ (ls : List String) (k cursor : ℕ) (c : HwCall),
      k < ls.length →
      (∀ j, j < k → executeOneLine hw (ls.getD j "") = .ok (.ok ())) →
      executeOneLine hw (ls.getD k "") = .error c →
      runLines hw idle ls cursor =
        (.panicked (cursor + k) c, List.range' (cursor + 1) k) := by
  intro ls
  induction ls with
  | nil => intro k cursor c hk; simp at hk
  | cons line rest ih =>
    intro k cursor c hk hprev hfail
    rcases k with _ | k'
    · have hfail' : executeOneLine hw line = .error c := by simpa using hfail
      simp [runLines, hfail']
    · have h0 : executeOneLine hw line = .ok (.ok ()) := by
        simpa using hprev 0 (by omega)
      have hprev' : ∀ j, j < k' →
          executeOneLine hw (rest.getD j "") = .ok (.ok ()) := by
        intro j hj
        simpa using hprev (j + 1) (by omega)
      have hfail' : executeOneLine hw (rest.getD k' "") = .error c := by
        simpa using hfail
      have hk' : k' < rest.length := by
        simpa using hk
      simp only [runLines, h0, hidle, ih k' (cursor + 1) c hk' hprev' hfail']
      rw [List.range'_succ]
      have harg : cursor + 1 + k' = cursor + (k' + 1) := by omega
      rw [harg]

/-- Claim C1 (amended): `execute_one_line` never returns an error value —
its `Result` is always `Ok`, so no `ExecutionError` is ever propagated to
the loop; instead, a hardware call that fails while interpreting line `k`
panics the executor task through the `.expect` call sites, which aborts
the run with the cursor still at `k` (the increment for line `k` is never
published). -/
theorem c1_hw_failure_panics_with_cursor_at_k :
    (∀ (hw : HwCall → Bool) (line : String) (e : String),
      executeOneLine hw line ≠ .ok (.error e)) ∧
    (∀ (hw : HwCall → Bool) (idle : ℕ → Bool) (lines : List String)
      (k : ℕ) (c : HwCall),
      k < lines.length →
      (∀ j, j < k → executeOneLine hw (lines.getD j "") = .ok (.ok ())) →
      waitIdle hw idle [0, 1, 2] = .ok true →
      executeOneLine hw (lines.getD k "") = .error c →
      runGCode hw idle lines = (.panicked k c, List.range' 1 k)) := by
  constructor
  · intro hw line e h
    unfold executeOneLine at h
    split at h
    · simp at h
    · split at h <;> simp at h
  · intro hw idle lines k c hk hprev hidle hfail
    have h := runLines_panics hw idle hidle lines k 0 c hk hprev hfail
    simpa [runGCode] using h

/-- Counterexample for C1 as stated: with an oracle failing every absolute
move, running the one-line program `G1 X10` ends in a task panic carrying
the failing call — `execute_one_line` does not surface any error value
(its result on this line is the panic, not `Ok(Err(ExecutionError))`),
and the cursor stays at 0. -/
theorem c1_counterexample_failure_is_panic_not_error :
    runGCode (fun c => match c with | .moveAbs _ _ => false | _ => true)
        (fun _ => true) ["G1 X10"] =
      (.panicked 0 (.moveAbs [0] [10]), []) ∧
    executeOneLine (fun c => match c with | .moveAbs _ _ => false | _ => true)
        "G1 X10" = .error (.moveAbs [0] [10]) :=
  ⟨by with_unfolding_all rfl, by with_unfolding_all rfl⟩

/-- Witness for the amended C1 at a concrete two-line program failing on
its second line. -/
theorem c1_hw_failure_panics_with_cursor_at_k_witness :
    runGCode (fun c => match c with | .moveAbs _ _ => false | _ => true)
        (fun _ => true) ["M5", "G1 X10"] =
      (.panicked 1 (.moveAbs [0] [10]), [1]) := by
  have hfailhw : ∀ (e : String),
      executeOneLine (fun c => match c with | .moveAbs _ _ => false | _ => true)
        "M5" ≠ .ok (.error e) :=
    c1_hw_failure_panics_with_cursor_at_k.1
      (fun c => match c with | .moveAbs _ _ => false | _ => true) "M5"
  have h := c1_hw_failure_panics_with_cursor_at_k.2
    (fun c => match c with | .moveAbs _ _ => false | _ => true)
    (fun _ => true) ["M5", "G1 X10"] 1 (.moveAbs [0] [10])
    (by norm_num)
    (by
      intro j hj
      interval_cases j
      with_unfolding_all rfl)
    rfl
    (by with_unfolding_all rfl)
  simpa using h

/-- Helper: a rational at least a natural bound saturating-casts to at
least that bound, provided the bound itself fits in `usize`. -/
theorem rustCastUsize_ge (q : ℚ) (n : ℕ) (hn : n ≤ 2 ^ 64 - 1)
    (h : (n : ℚ) ≤ q) : n ≤ rustCastUsize q := by
  unfold rustCastUsize
  have h1 : (n : ℤ) ≤ q.floor := by
    rw [Rat.le_floor]
    exact_mod_cast h
  omega

/-- Claim C2 (amended): a machine coordinate whose pixel projection is at
or beyond the raster on the high side — at least `width` (resp. `height`)
in the x (resp. y) pixel direction — leaves the raster data completely
unchanged, and `set_pixel` is total (never panics).  A projection that is
negative saturates to pixel 0 under the `as usize` cast and is treated as
an in-bounds border write, so the original claim's negative case does not
hold. -/
theorem c2_set_pixel_beyond_raster_unchanged :
    ∀ (b : Bitmap) (x y z : ℚ),
      b.width ≤ 2 ^ 64 - 1 → b.height ≤ 2 ^ 64 - 1 →
      ((b.width : ℚ) ≤ (b.origin_x : ℚ) + x * b.scale ∨
        (b.height : ℚ) ≤ (b.origin_y : ℚ) - y * b.scale) →
      b.set_pixel x y z = b := by
  intro b x y z hw hh hcond
  have hguard : rustCastUsize ((b.origin_x : ℚ) + x * b.scale) ≥ b.width ∨
      rustCastUsize ((b.origin_y : ℚ) - y * b.scale) ≥ b.height := by
    rcases hcond with h | h
    · exact Or.inl (rustCastUsize_ge _ _ hw h)
    · exact Or.inr (rustCastUsize_ge _ _ hh h)
  unfold Bitmap.set_pixel Bitmap.plotAt
  rw [if_pos hguard]

/-- Counterexample for C2 as stated: on a fresh 4×4 raster with scale 1,
the machine coordinate `x = -10` projects to `-8 < 0` — outside
`[0, width)` on the negative side — yet `set_pixel` changes the raster
data (the cast saturates the projection to pixel column 0). -/
theorem c2_counterexample_negative_projection_writes :
    ((Bitmap.new 4 4 1).origin_x : ℚ) + (-10) * (Bitmap.new 4 4 1).scale < 0 ∧
    (Bitmap.new 4 4 1).set_pixel (-10) 0 0 ≠ Bitmap.new 4 4 1 :=
  ⟨by with_unfolding_all decide, by with_unfolding_all decide⟩

/-- Witness for the amended C2: a projection beyond the raster width is
dropped. -/
theorem c2_set_pixel_beyond_raster_unchanged_witness :
    (Bitmap.new 4 4 1).set_pixel 100 0 0 = Bitmap.new 4 4 1 :=
  c2_set_pixel_beyond_raster_unchanged (Bitmap.new 4 4 1) 100 0 0
    (by with_unfolding_all decide) (by with_unfolding_all decide)
    (Or.inl (by with_unfolding_all decide))

/-- Helper: overwriting one byte inside a complete four-byte group is
absorbed by `clearData`. -/
theorem clearData_set : ∀ (l : List ℕ) (p v : ℕ), 4 * (p / 4) + 3 < l.length →
    clearData (l.set p v) = clearData l
  | a :: b :: c :: d :: rest, p, v, h => by
    rcases p with _ | _ | _ | _ | p'
    · rfl
    · rfl
    · rfl
    · rfl
    · have h' : 4 * (p' / 4) + 3 < rest.length := by
        simp only [List.length_cons] at h
        omega
      simp only [List.set_cons_succ, clearData]
      rw [clearData_set rest p' v h']
  | [], p, v, h => by simp at h
  | [a], p, v, h => by
    simp only [List.length_cons, List.length_nil] at h
    omega
  | [a, b], p, v, h => by
    simp only [List.length_cons, List.length_nil] at h
    omega
  | [a, b, c], p, v, h => by
    simp only [List.length_cons, List.length_nil] at h
    omega

/-- Helper: `clearData` is idempotent. -/
theorem clearData_idem : ∀ l : List ℕ, clearData (clearData l) = clearData l
  | _ :: _ :: _ :: _ :: rest => by
    simp only [clearData]
    rw [clearData_idem rest]
  | [] => rfl
  | [_] => rfl
  | [_, _] => rfl
  | [_, _, _] => rfl

/-- Helper: a four-byte pixel store is absorbed by `clear`. -/
theorem clearData_writeColor (data : List ℕ) (m : ℕ) (color : ℕ × ℕ × ℕ × ℕ) :
    clearData (writeColor data (m * 4) color) = clearData data := by
  unfold writeColor
  split
  · rename_i h
    have h0 : 4 * ((m * 4) / 4) + 3 < data.length := by omega
    have h1 : 4 * ((m * 4 + 1) / 4) + 3 < data.length := by omega
    have h2 : 4 * ((m * 4 + 2) / 4) + 3 < data.length := by omega
    have h3 : 4 * ((m * 4 + 3) / 4) + 3 < data.length := by omega
    rw [clearData_set _ _ _ (by simpa using h3),
      clearData_set _ _ _ (by simpa using h2),
      clearData_set _ _ _ (by simpa using h1),
      clearData_set _ _ _ h0]
  · rfl

/-- Helper: any single plot is absorbed by a following `clear`. -/
theorem clear_plotAt (b : Bitmap) (px py : ℕ) (color : ℕ × ℕ × ℕ × ℕ) :
    (b.plotAt px py color).clear = b.clear := by
  unfold Bitmap.plotAt
  split
  · rfl
  · unfold Bitmap.clear
    simp only []
    rw [clearData_writeColor]

/-- Helper: `set_pixel` is absorbed by a following `clear`. -/
theorem clear_set_pixel (b : Bitmap) (x y z : ℚ) :
    (b.set_pixel x y z).clear = b.clear :=
  clear_plotAt b _ _ _

/-- Helper: the real-coordinate `set_pixel` is absorbed by a following
`clear`. -/
theorem clear_setPixelR (b : Bitmap) (x y : ℝ) (z : ℚ) :
    (b.setPixelR x y z).clear = b.clear :=
  clear_plotAt b _ _ _

/-- Helper: a fold of rational pixel plots is absorbed by `clear`. -/
theorem clear_foldl_set_pixel (pts : List (ℚ × ℚ × ℚ)) :
    ∀ b : Bitmap,
      (pts.foldl (fun acc p => acc.set_pixel p.1 p.2.1 p.2.2) b).clear = b.clear := by
  induction pts with
  | nil => intro b; rfl
  | cons p rest ih =>
    intro b
    rw [List.foldl_cons, ih, clear_set_pixel]

/-- Helper: a fold of real pixel plots is absorbed by `clear`. -/
theorem clear_foldl_setPixelR (pts : List (ℝ × ℝ × ℚ)) :
    ∀ b : Bitmap,
      (pts.foldl (fun acc p => acc.setPixelR p.1 p.2.1 p.2.2) b).clear = b.clear := by
  induction pts with
  | nil => intro b; rfl
  | cons p rest ih =>
    intro b
    rw [List.foldl_cons, ih, clear_setPixelR]

/-- Helper: `draw_line` is absorbed by a following `clear`. -/
theorem clear_draw_line (b : Bitmap) (x1 y1 z1 x2 y2 z2 : ℚ) :
    (b.draw_line x1 y1 z1 x2 y2 z2).clear = b.clear :=
  clear_foldl_set_pixel _ b

/-- Helper: `draw_arc` is absorbed by a following `clear`. -/
theorem clear_draw_arc (b : Bitmap) (x1 y1 z1 x2 y2 z2 ci cj : ℚ) (cw : Bool) :
    (b.draw_arc x1 y1 z1 x2 y2 z2 ci cj cw).clear = b.clear :=
  clear_foldl_setPixelR _ b

/-- Helper: one preview step is absorbed by a following `clear`. -/
theorem clear_previewStep (cmd : GCodeCommand) (b : Bitmap) (st : ToolPos) :
    ((previewStep cmd b st).1).clear = b.clear := by
  simp only [previewStep]
  split
  · split
    · split
      · exact clear_draw_line b _ _ _ _ _ _
      · rfl
    · split
      · split
        · exact clear_draw_arc b _ _ _ _ _ _ _ _ _
        · rfl
      · rfl
  · rfl

/-- Helper: the whole preview replay is absorbed by a following `clear`. -/
theorem clear_preview_foldl (lines : List String) :
    ∀ acc : Bitmap × ToolPos,
      ((lines.foldl
        (fun acc line =>
          match parse_gcode_line line with
          | some cmd => previewStep cmd acc.1 acc.2
          | none => acc) acc).1).clear = acc.1.clear := by
  induction lines with
  | nil => intro acc; rfl
  | cons line rest ih =>
    intro acc
    rw [List.foldl_cons, ih]
    rcases parse_gcode_line line with _ | cmd
    · rfl
    · exact clear_previewStep cmd acc.1 acc.2

/-- Helper: `clear` is idempotent on bitmaps. -/
theorem clear_clear (b : Bitmap) : b.clear.clear = b.clear := by
  unfold Bitmap.clear
  simp only []
  rw [clearData_idem]

/-- Claim C8: running the preview twice over the same program yields the
identical raster: each run first clears the bitmap and replays the program
from the simulated position `(0,0,0)` (and no session call occurs on the
preview path), so the second run reproduces the first byte for byte. -/
theorem c8_preview_deterministic_idempotent :
    ∀ (lines : List String) (b : Bitmap),
      generatePreview lines (generatePreview lines b) = generatePreview lines b := by
  intro lines b
  unfold generatePreview
  rw [clear_preview_foldl lines (b.clear, ({ x := 0, y := 0, z := 0 } : ToolPos))]
  simp only []
  rw [clear_clear]

/-- Helper: `atan2 0 10 = 0` (the start angle of the C7 arc). -/
theorem atan2_zero_ten : atan2 0 10 = 0 := by
  unfold atan2
  have h : (⟨10, 0⟩ : ℂ) = ((10 : ℝ) : ℂ) := by
    apply Complex.ext <;> simp
  rw [h]
  exact Complex.arg_ofReal_of_nonneg (by norm_num)

/-- Helper: `atan2 10 0 = π/2` (the end angle of the C7 arc). -/
theorem atan2_ten_zero : atan2 10 0 = Real.pi / 2 := by
  unfold atan2
  have h : (⟨0, 10⟩ : ℂ) = ((10 : ℝ) : ℂ) * Complex.I := by
    apply Complex.ext <;> simp
  rw [h, Complex.arg_real_mul Complex.I (by norm_num : (0:ℝ) < 10), Complex.arg_I]

/-- Helper: the saturating real-to-`usize` cast at 50. -/
theorem realCastUsize_fifty : realCastUsize 50 = 50 := by
  unfold realCastUsize
  norm_num
  rfl

/-- Helper: the saturating real-to-`usize` cast at 100. -/
theorem realCastUsize_hundred : realCastUsize 100 = 100 := by
  unfold realCastUsize
  norm_num
  rfl

/-- Helper: the clockwise `draw_arc` sweep from `(10,0)` to `(0,10)` with
center offset `(-10,0)` plots 51 points at angles `-kπ/100`: the step
recomputation `angle_step = (endA - startA) / steps` (negated for
clockwise) sweeps only `π/2` clockwise instead of the `3π/2` needed to
reach the end point. -/
theorem arcPoints_cw_concrete :
    arcPoints 10 0 0 0 10 0 (-10) 0 true =
      (List.range (50 + 1)).map (fun k : ℕ =>
        (10 * Real.cos ((k : ℝ) * -(Real.pi / 100)),
          10 * Real.sin ((k : ℝ) * -(Real.pi / 100)), (0 : ℚ))) := by
  simp only [arcPoints]
  push_cast
  norm_num [atan2_zero_ten, atan2_ten_zero, Real.pi_pos]
  have h1 : ((Real.pi / 2 - 2 * Real.pi) / 100) = -(3 * Real.pi / 200) := by ring
  have hratio : |Real.pi / 2| / |(Real.pi / 2 - 2 * Real.pi) / 100| = 100 / 3 := by
    rw [h1, abs_neg, abs_of_nonneg (by positivity : (0:ℝ) ≤ 3 * Real.pi / 200),
      abs_of_nonneg (by positivity : (0:ℝ) ≤ Real.pi / 2)]
    have hpi := Real.pi_ne_zero
    field_simp
    ring
  have hmax : ((100:ℝ) / 3) ⊔ 50 = 50 := max_eq_right (by norm_num)
  have hsqrt : Real.sqrt 100 = 10 := by
    rw [show (100:ℝ) = 10 ^ 2 by norm_num]
    exact Real.sqrt_sq (by norm_num)
  have harg : Real.pi / 2 / ((50:ℕ):ℝ) = Real.pi / 100 := by push_cast; ring
  simp only [hratio, hmax, realCastUsize_fifty, hsqrt, harg]

/-- Helper: the counterclockwise sweep of the same arc plots 101 points at
angles `kπ/200`, correctly ending at the end point's angle `π/2`. -/
theorem arcPoints_ccw_concrete :
    arcPoints 10 0 0 0 10 0 (-10) 0 false =
      (List.range (100 + 1)).map (fun k : ℕ =>
        (10 * Real.cos ((k : ℝ) * (Real.pi / 200)),
          10 * Real.sin ((k : ℝ) * (Real.pi / 200)), (0 : ℚ))) := by
  simp only [arcPoints]
  push_cast
  norm_num [atan2_zero_ten, atan2_ten_zero, Real.pi_pos]
  have hcond : ¬(Real.pi / 2 < 0) := not_lt.mpr (by positivity)
  have hratio : |Real.pi / 2| / |Real.pi / 2 / 100| = 100 := by
    rw [abs_of_nonneg (by positivity : (0:ℝ) ≤ Real.pi / 2),
      abs_of_nonneg (by positivity : (0:ℝ) ≤ Real.pi / 2 / 100)]
    have hpi := Real.pi_ne_zero
    field_simp
    ring
  have hmax : ((100:ℝ)) ⊔ 50 = 100 := max_eq_left (by norm_num)
  have hsqrt : Real.sqrt 100 = 10 := by
    rw [show (100:ℝ) = 10 ^ 2 by norm_num]
    exact Real.sqrt_sq (by norm_num)
  have harg : Real.pi / 2 / ((100:ℕ):ℝ) = Real.pi / 200 := by push_cast; ring
  simp only [hcond, if_false, hratio, hmax, realCastUsize_hundred, hsqrt, harg]

/-- Helper: head of a mapped range. -/
theorem head?_map_range {α : Type} (n : ℕ) (f : ℕ → α) :
    ((List.range (n + 1)).map f).head? = some (f 0) := by
  rw [List.range_succ_eq_map]
  simp

/-- Helper: last element of a mapped range. -/
theorem getLast?_map_range {α : Type} (n : ℕ) (f : ℕ → α) :
    ((List.range (n + 1)).map f).getLast? = some (f n) := by
  rw [List.range_succ, List.map_append]
  simp

/-- Claim C7, evaluated at the failing input: `draw_arc` from `(10,0)` to
`(0,10)` with center offset `(-10,0)` plots, clockwise and
counterclockwise, two different non-empty point sequences (51 and 101
points), both starting at `(10,0)`; the counterclockwise sweep ends at the
end point `(0,10)`, but the clockwise sweep ends at `(0,-10)` — the
reflection of the end point through the center, 20 units away — so the
clockwise path does not reach the end point in the requested rotational
sense. -/
theorem c7_draw_arc_clockwise_misses_endpoint :
    (arcPoints 10 0 0 0 10 0 (-10) 0 true).length = 51 ∧
    (arcPoints 10 0 0 0 10 0 (-10) 0 false).length = 101 ∧
    (arcPoints 10 0 0 0 10 0 (-10) 0 true).head? = some (10, 0, 0) ∧
    (arcPoints 10 0 0 0 10 0 (-10) 0 false).head? = some (10, 0, 0) ∧
    (arcPoints 10 0 0 0 10 0 (-10) 0 false).getLast? = some (0, 10, 0) ∧
    (arcPoints 10 0 0 0 10 0 (-10) 0 true).getLast? = some (0, -10, 0) ∧
    arcPoints 10 0 0 0 10 0 (-10) 0 true ≠ arcPoints 10 0 0 0 10 0 (-10) 0 false ∧
    ((0:ℝ), (-10:ℝ), (0:ℚ)) ≠ ((0:ℝ), (10:ℝ), (0:ℚ)) := by
  have hlen1 : (arcPoints 10 0 0 0 10 0 (-10) 0 true).length = 51 := by
    rw [arcPoints_cw_concrete]
    simp
  have hlen2 : (arcPoints 10 0 0 0 10 0 (-10) 0 false).length = 101 := by
    rw [arcPoints_ccw_concrete]
    simp
  refine ⟨hlen1, hlen2, ?_, ?_, ?_, ?_, ?_, ?_⟩
  · rw [arcPoints_cw_concrete, head?_map_range]
    norm_num
  · rw [arcPoints_ccw_concrete, head?_map_range]
    norm_num
  · rw [arcPoints_ccw_concrete, getLast?_map_range]
    norm_num [show ((100:ℕ):ℝ) * (Real.pi / 200) = Real.pi / 2 from by push_cast; ring,
      show (100:ℝ) * (Real.pi / 200) = Real.pi / 2 from by ring]
  · rw [arcPoints_cw_concrete, getLast?_map_range]
    norm_num [show (50:ℝ) * (Real.pi / 100) = Real.pi / 2 from by ring,
      Real.cos_neg, Real.sin_neg]
  · intro heq
    have hlen := congrArg List.length heq
    rw [hlen1, hlen2] at hlen
    norm_num at hlen
  · intro heq
    have := congrArg (fun p => p.2.1) heq
    norm_num at this
